import Mathlib

/-!
Verification development for the breath-line model (`src/Breathline.py`).

The Python module is shallowly embedded below:

* SHA-256 (`hashlib.sha256(...).hexdigest()`) is implemented over byte lists
  (`List Nat`, each entry `< 256`), with 32-bit words carried as `Nat` reduced
  modulo `2 ^ 32`.
* `json.dumps(metadata, sort_keys=True)` for a flat string-to-string dict is
  implemented by `canonical_json`: entries are sorted the way CPython sorts
  `d.items()` (lexicographically on the (key, value) pair, by code point), and
  each string is escaped the way `json.dumps` escapes it with its default
  `ensure_ascii=True` (so the output is pure ASCII and `.encode()` is just the
  code points).
* The `NFT` dataclass becomes a structure; `__post_init__` becomes the smart
  constructor `NFT.make`.
* `cross_verify_nfts` returns an enriched outcome (`VerifyOutcome`) recording
  which token id the failure message names; the boolean the Python function
  returns is recovered by `cross_verify_ok`.
* `think` works over exact rationals in place of Python floats (every value
  the claims touch is exactly representable, and the band comparisons at
  stake are exact); the `ZeroDivisionError` it can raise becomes `Except`.
* The `main` loop is embedded twice: as an event trace parameterised by the
  verifier's per-cycle outcome (`mainTrace`), and as a state machine
  threading the NFT store (`runLoopState`), which the loop body never
  rebinds.
-/

set_option maxRecDepth 1000000

/-- Modulus for 32-bit words. -/
def M32 : Nat := 4294967296

/-- Addition modulo `2 ^ 32`. -/
def add32 (a b : Nat) : Nat := (a + b) % M32

/-- Right rotation of a 32-bit word by `n` bits. -/
def rotr (n x : Nat) : Nat := ((x >>> n) ||| (x <<< (32 - n))) % M32

/-- SHA-256 big sigma-0. -/
def bigS0 (x : Nat) : Nat := (rotr 2 x) ^^^ (rotr 13 x) ^^^ (rotr 22 x)

/-- SHA-256 big sigma-1. -/
def bigS1 (x : Nat) : Nat := (rotr 6 x) ^^^ (rotr 11 x) ^^^ (rotr 25 x)

/-- SHA-256 small sigma-0. -/
def smallS0 (x : Nat) : Nat := (rotr 7 x) ^^^ (rotr 18 x) ^^^ (x >>> 3)

/-- SHA-256 small sigma-1. -/
def smallS1 (x : Nat) : Nat := (rotr 17 x) ^^^ (rotr 19 x) ^^^ (x >>> 10)

/-- SHA-256 choice function (the complement is taken inside 32 bits). -/
def chF (x y z : Nat) : Nat := (x &&& y) ^^^ ((x ^^^ 4294967295) &&& z)

/-- SHA-256 majority function. -/
def majF (x y z : Nat) : Nat := (x &&& y) ^^^ (x &&& z) ^^^ (y &&& z)

/-- SHA-256 round constants (decimal). -/
def K256 : List Nat :=
  [1116352408, 1899447441, 3049323471, 3921009573, 961987163, 1508970993,
   2453635748, 2870763221, 3624381080, 310598401, 607225278, 1426881987,
   1925078388, 2162078206, 2614888103, 3248222580, 3835390401, 4022224774,
   264347078, 604807628, 770255983, 1249150122, 1555081692, 1996064986,
   2554220882, 2821834349, 2952996808, 3210313671, 3336571891, 3584528711,
   113926993, 338241895, 666307205, 773529912, 1294757372, 1396182291,
   1695183700, 1986661051, 2177026350, 2456956037, 2730485921, 2820302411,
   3259730800, 3345764771, 3516065817, 3600352804, 4094571909, 275423344,
   430227734, 506948616, 659060556, 883997877, 958139571, 1322822218,
   1537002063, 1747873779, 1955562222, 2024104815, 2227730452, 2361852424,
   2428436474, 2756734187, 3204031479, 3329325298]

/-- SHA-256 initial hash value (decimal). -/
def H0 : List Nat :=
  [1779033703, 3144134277, 1013904242, 2773480762,
   1359893119, 2600822924, 528734635, 1541459225]

/-- SHA-256 padding: append `0x80`, zeros to 56 mod 64, and the bit length
as 8 big-endian bytes. -/
def padMsg (msg : List Nat) : List Nat :=
  let L := msg.length
  let zeros := (64 + 56 - ((L + 1) % 64)) % 64
  let bitLen := 8 * L
  msg ++ [128] ++ List.replicate zeros 0 ++
    [(bitLen >>> 56) % 256, (bitLen >>> 48) % 256, (bitLen >>> 40) % 256, (bitLen >>> 32) % 256,
     (bitLen >>> 24) % 256, (bitLen >>> 16) % 256, (bitLen >>> 8) % 256, bitLen % 256]

/-- Group a padded byte list into 32-bit big-endian words. -/
def toWords : List Nat → List Nat
  | a :: b :: c :: d :: rest => (a * 16777216 + b * 65536 + c * 256 + d) :: toWords rest
  | _ => []

/-- Group a word list into 16-word blocks. -/
def toBlocks : List Nat → List (List Nat)
  | w1 :: w2 :: w3 :: w4 :: w5 :: w6 :: w7 :: w8 ::
    w9 :: w10 :: w11 :: w12 :: w13 :: w14 :: w15 :: w16 :: rest =>
      [w1, w2, w3, w4, w5, w6, w7, w8, w9, w10, w11, w12, w13, w14, w15, w16] :: toBlocks rest
  | _ => []

/-- One step of the SHA-256 message-schedule extension. -/
def extendStep (w : Array Nat) : Array Nat :=
  let i := w.size
  w.push (add32 (add32 (smallS1 (w.getD (i - 2) 0)) (w.getD (i - 7) 0))
                (add32 (smallS0 (w.getD (i - 15) 0)) (w.getD (i - 16) 0)))

/-- Iterate the message-schedule extension. -/
def extendLoop (w : Array Nat) : Nat → Array Nat
  | 0 => w
  | n + 1 => extendLoop (extendStep w) n

/-- Extend a 16-word block to the 64-word message schedule. -/
def schedule (block : List Nat) : List Nat :=
  (extendLoop (Array.mk block) 48).toList

/-- Working state of the SHA-256 compression function. -/
structure HashState where
  a : Nat
  b : Nat
  c : Nat
  d : Nat
  e : Nat
  f : Nat
  g : Nat
  h : Nat

/-- One SHA-256 compression round; `kw` is the pair of round constant and
schedule word. -/
def roundStep (st : HashState) (kw : Nat × Nat) : HashState :=
  let t1 := add32 (add32 (add32 st.h (bigS1 st.e)) (add32 (chF st.e st.f st.g) kw.1)) kw.2
  let t2 := add32 (bigS0 st.a) (majF st.a st.b st.c)
  ⟨add32 t1 t2, st.a, st.b, st.c, add32 st.d t1, st.e, st.f, st.g⟩

/-- SHA-256 compression of one block into the running hash. -/
def compress (hs : List Nat) (block : List Nat) : List Nat :=
  match hs with
  | [a, b, c, d, e, f, g, h] =>
    let w := schedule block
    let st := (List.zip K256 w).foldl roundStep ⟨a, b, c, d, e, f, g, h⟩
    [add32 a st.a, add32 b st.b, add32 c st.c, add32 d st.d,
     add32 e st.e, add32 f st.f, add32 g st.g, add32 h st.h]
  | _ => hs

/-- SHA-256 of a byte list, as eight 32-bit words. -/
def sha256Words (msg : List Nat) : List Nat :=
  (toBlocks (toWords (padMsg msg))).foldl compress H0

/-- Lowercase hexadecimal digit. -/
def hexDigit (n : Nat) : Char :=
  if n < 10 then Char.ofNat (48 + n) else Char.ofNat (87 + n)

/-- Render a 32-bit word as 8 lowercase hex characters. -/
def wordHex (w : Nat) : String :=
  String.mk ((List.range 8).map (fun i => hexDigit ((w >>> (28 - 4 * i)) &&& 15)))

/-- SHA-256 hex digest of a byte list, as `hashlib.sha256(...).hexdigest()`
returns it. -/
def sha256hex (msg : List Nat) : String :=
  String.join ((sha256Words msg).map wordHex)

/-- Bytes of an ASCII string (`str.encode()`); every string this development
hashes is produced by the `ensure_ascii` JSON serializer, so the UTF-8 bytes
are exactly the code points. -/
def strBytes (s : String) : List Nat := s.data.map Char.toNat

/-- Four lowercase hex characters, as in the `\\uXXXX` escapes of
`json.dumps`. -/
def hexDigits4 (n : Nat) : List Char :=
  [hexDigit ((n >>> 12) &&& 15), hexDigit ((n >>> 8) &&& 15),
   hexDigit ((n >>> 4) &&& 15), hexDigit (n &&& 15)]

/-- Escape of a single character exactly as CPython's
`json.encoder.py_encode_basestring_ascii` (the default `ensure_ascii=True`
path of `json.dumps`) produces it. -/
def escapeChar (c : Char) : List Char :=
  let n := c.toNat
  if c = '\\' then ['\\', '\\']
  else if c = '\"' then ['\\', '\"']
  else if n = 8 then ['\\', 'b']
  else if n = 9 then ['\\', 't']
  else if n = 10 then ['\\', 'n']
  else if n = 12 then ['\\', 'f']
  else if n = 13 then ['\\', 'r']
  else if 32 ≤ n ∧ n ≤ 126 then [c]
  else if n < 65536 then '\\' :: 'u' :: hexDigits4 n
  else ('\\' :: 'u' :: hexDigits4 (55296 + ((n - 65536) >>> 10))) ++
       ('\\' :: 'u' :: hexDigits4 (56320 + ((n - 65536) &&& 1023)))

/-- JSON serialization of a string: quoted, characters escaped. -/
def jsonStringChars (s : String) : List Char :=
  '\"' :: (s.data.map escapeChar).flatten ++ ['\"']

/-- Code-point lexicographic comparison of character lists: Python's `<` on
strings (and the element comparison behind `sorted`). -/
def strLtB : List Char → List Char → Bool
  | [], [] => false
  | [], _ :: _ => true
  | _ :: _, [] => false
  | c :: cs, d :: ds =>
    if c < d then true
    else if d < c then false
    else strLtB cs ds

/-- Boolean form of Python's tuple comparison `(k1, v1) <= (k2, v2)` used by
`sorted(d.items())`: keys first, then values. -/
def itemLeB (p q : String × String) : Bool :=
  if strLtB p.1.data q.1.data then true
  else if p.1 = q.1 then
    (if strLtB p.2.data q.2.data then true else p.2 == q.2)
  else false

/-- The sorting relation on dict items. -/
def itemLe (p q : String × String) : Prop := itemLeB p q = true

instance decItemLe : DecidableRel itemLe := fun p q => instDecidableEqBool (itemLeB p q) true

/-- The items of the dict in the order `json.dumps(..., sort_keys=True)`
serializes them: `sorted(d.items())`. -/
def sortItems (m : List (String × String)) : List (String × String) :=
  List.insertionSort itemLe m

/-- Characters of one serialized `"key": "value"` entry. -/
def entryChars (p : String × String) : List Char :=
  jsonStringChars p.1 ++ ':' :: ' ' :: jsonStringChars p.2

/-- Serialized entries joined with the default `", "` item separator. -/
def joinEntries : List (String × String) → List Char
  | [] => []
  | [p] => entryChars p
  | p :: q :: rest => entryChars p ++ ',' :: ' ' :: joinEntries (q :: rest)

/-- The canonical serialization
`json.dumps(metadata, sort_keys=True)` of a flat string-to-string dict. -/
def canonical_json (metadata : List (String × String)) : String :=
  String.mk (Char.ofNat 123 :: joinEntries (sortItems metadata) ++ [Char.ofNat 125])

/-- Digest a record's metadata the way both `NFT.__post_init__` (line 61)
and `cross_verify_nfts` (line 81) do:
`hashlib.sha256(json.dumps(metadata, sort_keys=True).encode()).hexdigest()`. -/
def nftDigest (metadata : List (String × String)) : String :=
  sha256hex (strBytes (canonical_json metadata))

/-- The `NFT` dataclass (lines 41-61).  The metadata dict is carried in its
insertion order; `signature` is an ordinary field so that tampered records
can be represented. -/
structure NFT where
  token_id : String
  metadata : List (String × String)
  signature : String

/-- Construction of an `NFT` the only way the program constructs one:
`__post_init__` fills `signature` with the digest of the metadata. -/
def NFT.make (token_id : String) (metadata : List (String × String)) : NFT :=
  { token_id := token_id, metadata := metadata, signature := nftDigest metadata }

/-- Outcome of `cross_verify_nfts`, enriched with the token id that the
error branch prints before returning `False`. -/
inductive VerifyOutcome
  | ok
  | mismatch (token_id : String)
  | duplicate (token_id : String)
deriving DecidableEq

/-- The verification loop of `cross_verify_nfts` (lines 78-89), with the
`seen_signatures` set carried as the list of digests added so far. -/
def crossVerifyAux (seen : List String) : List NFT → VerifyOutcome
  | [] => .ok
  | nft :: rest =>
    let expected_sig := nftDigest nft.metadata
    if expected_sig ≠ nft.signature then .mismatch nft.token_id
    else if expected_sig ∈ seen then .duplicate nft.token_id
    else crossVerifyAux (expected_sig :: seen) rest

/-- `cross_verify_nfts` (lines 64-89), with the enriched outcome. -/
def cross_verify_nfts (nfts : List NFT) : VerifyOutcome :=
  crossVerifyAux [] nfts

/-- The boolean the Python function actually returns: `True` exactly on the
`ok` outcome. -/
def cross_verify_ok (nfts : List NFT) : Bool :=
  cross_verify_nfts nfts == VerifyOutcome.ok

/-- The error `think` can raise (`ZeroDivisionError` on an empty reading). -/
inductive PyError
  | zeroDivisionError
deriving DecidableEq

/-- Arithmetic mean computed by `think` (line 125):
`sum(readings.values()) / len(readings)`. -/
def meanOf (readings : List (String × ℚ)) : ℚ :=
  (readings.map Prod.snd).sum / (readings.length : ℚ)

/-- Status computed by `think` (line 126):
`"normal" if 24.0 <= avg <= 26.0 else "anomaly"`. -/
def statusOf (readings : List (String × ℚ)) : String :=
  if 24 ≤ meanOf readings ∧ meanOf readings ≤ 26 then "normal" else "anomaly"

/-- The decision stub `think` (lines 111-128).  Python floats are modelled
as exact rationals; the division by `len(readings)` raises
`ZeroDivisionError` when the reading is empty. -/
def think (readings : List (String × ℚ)) : Except PyError (String × ℚ) :=
  if readings.length = 0 then .error .zeroDivisionError
  else
    let avg := (readings.map Prod.snd).sum / (readings.length : ℚ)
    let status := if 24 ≤ avg ∧ avg ≤ 26 then "normal" else "anomaly"
    .ok (status, avg)

/-- One observable stage of the `main` loop (lines 178-194). -/
inductive StageEvent
  | verifyStage (cycle : Nat) (ok : Bool)
  | updateStage
  | thinkStage
  | actStage
  | breathStage
deriving DecidableEq, BEq

/-- Event trace of `for cycle in range(1, MAX_CYCLES + 1)`: each cycle runs
the verifier and either breaks or runs update, think, act, breath in that
order.  `verifyOk` gives the verifier's outcome on each cycle (in the
source it is `cross_verify_nfts(nfts)`; the trace is parameterised so that
hypothetical failing verifiers can be run too). -/
def runCycles (verifyOk : Nat → Bool) (cycle : Nat) : Nat → List StageEvent
  | 0 => []
  | n + 1 =>
    if verifyOk cycle then
      .verifyStage cycle true :: .updateStage :: .thinkStage :: .actStage :: .breathStage ::
        runCycles verifyOk (cycle + 1) n
    else
      [.verifyStage cycle false]

/-- `MAX_CYCLES = 5` (line 178). -/
def MAX_CYCLES : Nat := 5

/-- Trace of a full run of `main`'s loop. -/
def mainTrace (verifyOk : Nat → Bool) : List StageEvent :=
  runCycles verifyOk 1 MAX_CYCLES

/-- A verifier that fails on cycle 3 and succeeds elsewhere. -/
def failOnThree (cycle : Nat) : Bool := cycle != 3

/-- State threaded through `main`'s loop: the NFT store and the cycle
counter.  The loop body reads `nfts` but never rebinds or alters it. -/
structure LoopState where
  nfts : List NFT
  cycle : Nat

/-- One iteration of `main`'s loop as a state transformer: the store is
passed through untouched, only the cycle counter advances. -/
def loopStep (s : LoopState) : LoopState :=
  { s with cycle := s.cycle + 1 }

/-- Iterate the loop for `n` cycles. -/
def runLoopState (s : LoopState) : Nat → LoopState
  | 0 => s
  | n + 1 => runLoopState (loopStep s) n

/-- The literal 3-record store `main` constructs (lines 172-176), with each
dict in its source insertion order. -/
def mainStore : List NFT :=
  [NFT.make "nft1" [("owner", "alice"), ("asset", "artwork"), ("serial", "A123")],
   NFT.make "nft2" [("owner", "bob"), ("asset", "watch"), ("serial", "W456")],
   NFT.make "nft3" [("owner", "carol"), ("asset", "car"), ("serial", "C789")]]

/-- Strings with equal character data are equal. -/
theorem strEq_of_data {s t : String} (h : s.data = t.data) : s = t := by
  cases s; exact congrArg String.mk h

/-- The boolean comparison `strLtB` is the lexicographic order on the
character data. -/
theorem strLtB_iff : ∀ (a b : List Char), strLtB a b = true ↔ List.Lex (· < ·) a b
  | [], [] => by
      constructor
      · intro h; simp [strLtB] at h
      · intro h; cases h
  | [], _ :: _ => by
      constructor
      · intro _; exact List.Lex.nil
      · intro _; rfl
  | c :: cs, [] => by
      constructor
      · intro h; simp [strLtB] at h
      · intro h; cases h
  | c :: cs, d :: ds => by
      rcases lt_trichotomy c d with h | h | h
      · constructor
        · intro _; exact List.Lex.rel h
        · intro _; simp [strLtB, h]
      · subst h
        have hlt : ¬ c < c := lt_irrefl c
        constructor
        · intro hb
          have hcs : strLtB cs ds = true := by simpa [strLtB, hlt] using hb
          exact List.Lex.cons ((strLtB_iff cs ds).mp hcs)
        · intro hl
          cases hl with
          | cons h2 => simpa [strLtB, hlt] using (strLtB_iff cs ds).mpr h2
          | rel h2 => exact absurd h2 hlt
      · constructor
        · intro hb
          exact absurd hb (by simp [strLtB, asymm h, h])
        · intro hl
          cases hl with
          | cons h2 => exact absurd h (lt_irrefl _)
          | rel h2 => exact absurd h2 (asymm h)

/-- The lexicographic order on character lists is irreflexive. -/
theorem lex_irrefl (l : List Char) : ¬ List.Lex (· < ·) l l := fun hx => (asymm hx) hx

/-- Unfolding of the item comparison into lexicographic facts. -/
theorem itemLe_iff (p q : String × String) :
    itemLe p q ↔ (List.Lex (· < ·) p.1.data q.1.data ∨
      (p.1 = q.1 ∧ (List.Lex (· < ·) p.2.data q.2.data ∨ p.2 = q.2))) := by
  unfold itemLe itemLeB
  by_cases h1 : strLtB p.1.data q.1.data = true
  · simp [h1, (strLtB_iff _ _).mp h1]
  · rw [if_neg h1]
    have hk : ¬ List.Lex (· < ·) p.1.data q.1.data :=
      fun hl => h1 ((strLtB_iff _ _).mpr hl)
    by_cases h2 : p.1 = q.1
    · rw [if_pos h2]
      by_cases h3 : strLtB p.2.data q.2.data = true
      · simp [h3, h2, (strLtB_iff _ _).mp h3]
      · rw [if_neg h3]
        have hv : ¬ List.Lex (· < ·) p.2.data q.2.data :=
          fun hl => h3 ((strLtB_iff _ _).mpr hl)
        simp [hk, h2, hv, beq_iff_eq, lex_irrefl]
    · rw [if_neg h2]
      simp [hk, h2]

instance itemLeTotal : IsTotal (String × String) itemLe := ⟨by
  intro p q
  rw [itemLe_iff, itemLe_iff]
  have htk : List.Lex (· < ·) p.1.data q.1.data ∨ p.1.data = q.1.data ∨
      List.Lex (· < ·) q.1.data p.1.data := trichotomous_of _ _ _
  rcases htk with h | h | h
  · exact Or.inl (Or.inl h)
  · have hk : p.1 = q.1 := strEq_of_data h
    have htv : List.Lex (· < ·) p.2.data q.2.data ∨ p.2.data = q.2.data ∨
        List.Lex (· < ·) q.2.data p.2.data := trichotomous_of _ _ _
    rcases htv with h2 | h2 | h2
    · exact Or.inl (Or.inr ⟨hk, Or.inl h2⟩)
    · exact Or.inl (Or.inr ⟨hk, Or.inr (strEq_of_data h2)⟩)
    · exact Or.inr (Or.inr ⟨hk.symm, Or.inl h2⟩)
  · exact Or.inr (Or.inl h)⟩

instance itemLeTrans : IsTrans (String × String) itemLe := ⟨by
  intro p q r hpq hqr
  rw [itemLe_iff] at hpq hqr ⊢
  rcases hpq with hk1 | ⟨he1, hv1⟩
  · rcases hqr with hk2 | ⟨he2, hv2⟩
    · exact Or.inl (trans_of (List.Lex (· < ·)) hk1 hk2)
    · exact Or.inl (he2 ▸ hk1)
  · rcases hqr with hk2 | ⟨he2, hv2⟩
    · exact Or.inl (he1.symm ▸ hk2)
    · refine Or.inr ⟨he1.trans he2, ?_⟩
      rcases hv1 with hv1 | hv1
      · rcases hv2 with hv2 | hv2
        · exact Or.inl (trans_of (List.Lex (· < ·)) hv1 hv2)
        · exact Or.inl (hv2 ▸ hv1)
      · rcases hv2 with hv2 | hv2
        · exact Or.inl (hv1.symm ▸ hv2)
        · exact Or.inr (hv1.trans hv2)⟩

instance itemLeAntisymm : IsAntisymm (String × String) itemLe := ⟨by
  intro p q hpq hqp
  rw [itemLe_iff] at hpq hqp
  rcases hpq with hk1 | ⟨he1, hv1⟩
  · rcases hqp with hk2 | ⟨he2, hv2⟩
    · exact absurd hk2 (asymm hk1)
    · exact absurd (he2 ▸ hk1 : List.Lex (· < ·) p.1.data p.1.data) (fun hx => (asymm hx) hx)
  · rcases hqp with hk2 | ⟨he2, hv2⟩
    · exact absurd (he1 ▸ hk2 : List.Lex (· < ·) q.1.data q.1.data) (fun hx => (asymm hx) hx)
    · rcases hv1 with hv1 | hv1
      · rcases hv2 with hv2 | hv2
        · exact absurd hv2 (asymm hv1)
        · exact Prod.ext he1 hv2.symm
      · exact Prod.ext he1 hv1⟩

/-- Permutations with the same content sort identically. -/
theorem sortItems_perm_eq {l₁ l₂ : List (String × String)} (hp : List.Perm l₁ l₂) :
    sortItems l₁ = sortItems l₂ :=
  List.eq_of_perm_of_sorted
    (((List.perm_insertionSort itemLe l₁).trans hp).trans
      (List.perm_insertionSort itemLe l₂).symm)
    (List.sorted_insertionSort itemLe l₁) (List.sorted_insertionSort itemLe l₂)

/-- Recomputed digests of a record list, in order. -/
def digestsOf (l : List NFT) : List String := l.map (fun n => nftDigest n.metadata)

/-- A clean sequence of records is consumed by the verifier loop, which only
accumulates their digests into the seen set; verification continues on the
remaining records. -/
theorem crossVerifyAux_append (pre : List NFT) :
    ∀ (seen : List String) (rest : List NFT),
      (∀ n ∈ pre, nftDigest n.metadata = n.signature) →
      (∀ n ∈ pre, nftDigest n.metadata ∉ seen) →
      (digestsOf pre).Nodup →
      crossVerifyAux seen (pre ++ rest) =
        crossVerifyAux ((digestsOf pre).reverse ++ seen) rest := by
  induction pre with
  | nil => intro seen rest _ _ _; simp [digestsOf]
  | cons n pre ih =>
    intro seen rest hpass hseen hnd
    have hp : nftDigest n.metadata = n.signature := hpass n (List.mem_cons_self n pre)
    have hs : nftDigest n.metadata ∉ seen := hseen n (List.mem_cons_self n pre)
    have hndm : (nftDigest n.metadata :: digestsOf pre).Nodup := by
      simpa only [digestsOf, List.map_cons] using hnd
    have hndc := List.nodup_cons.mp hndm
    have hhead : ∀ m ∈ pre, nftDigest m.metadata ≠ nftDigest n.metadata := by
      intro m hm heq
      exact hndc.1 (List.mem_map.mpr ⟨m, hm, heq⟩)
    have hstep : crossVerifyAux seen ((n :: pre) ++ rest) =
        crossVerifyAux (nftDigest n.metadata :: seen) (pre ++ rest) := by
      show crossVerifyAux seen (n :: (pre ++ rest)) = _
      simp only [crossVerifyAux]
      rw [if_neg (not_not_intro hp), if_neg hs]
    rw [hstep, ih (nftDigest n.metadata :: seen) rest (fun m hm => hpass m (List.mem_cons_of_mem n hm))
      (fun m hm => by
        simp only [List.mem_cons, not_or]
        exact ⟨hhead m hm, hseen m (List.mem_cons_of_mem n hm)⟩)
      hndc.2]
    simp [digestsOf, List.append_assoc]

/-- The loop state machine never changes the NFT store. -/
theorem runLoopState_nfts (s : LoopState) : ∀ n, (runLoopState s n).nfts = s.nfts := by
  intro n
  induction n generalizing s with
  | zero => rfl
  | succ n ih =>
    show (runLoopState (loopStep s) n).nfts = s.nfts
    rw [ih (loopStep s)]
    rfl

/-- Validation of the embedding against CPython: the digest of nft1's
metadata as Python's `hashlib`/`json` compute it. -/
theorem nft1_digest_value :
    nftDigest [("owner", "alice"), ("asset", "artwork"), ("serial", "A123")] =
      "d0a76e9bc65451f3661d36b980b0f0935a885a3e1d71444e334d107f693c0694" := by decide

/-- Validation of the embedding against CPython: the digest of nft2's
metadata. -/
theorem nft2_digest_value :
    nftDigest [("owner", "bob"), ("asset", "watch"), ("serial", "W456")] =
      "45d83e2998618d3408513caa189a02fb43edcd9ff3976e83b7ec8cdad0afecee" := by decide

/-- Validation of the embedding against CPython: the digest of nft3's
metadata. -/
theorem nft3_digest_value :
    nftDigest [("owner", "carol"), ("asset", "car"), ("serial", "C789")] =
      "2e3f2851d3f5cecf926aac1cf1974272011278e54d041c4308382757a993b7b2" := by decide

/-- C1: the verifier processes records in sequence order, recomputing each
record's digest from its canonically serialized metadata; at the first
record violating a condition it fails immediately — with the mismatch
outcome when the recomputed digest differs from the stored one (this check
comes first), else with the duplicate outcome — naming that record's
identifier, and the records after the first failure have no effect on the
result. -/
theorem C1_verifier_first_failure (pre : List NFT) (r : NFT) (post₁ post₂ : List NFT)
    (hpass : ∀ n ∈ pre, nftDigest n.metadata = n.signature)
    (hnd : (digestsOf pre).Nodup)
    (hviol : ¬ (nftDigest r.metadata = r.signature ∧ nftDigest r.metadata ∉ digestsOf pre)) :
    (cross_verify_nfts (pre ++ r :: post₁) =
        if nftDigest r.metadata ≠ r.signature then VerifyOutcome.mismatch r.token_id
        else VerifyOutcome.duplicate r.token_id) ∧
    cross_verify_nfts (pre ++ r :: post₁) = cross_verify_nfts (pre ++ r :: post₂) := by
  have key : ∀ post : List NFT,
      cross_verify_nfts (pre ++ r :: post) =
        if nftDigest r.metadata ≠ r.signature then VerifyOutcome.mismatch r.token_id
        else VerifyOutcome.duplicate r.token_id := by
    intro post
    unfold cross_verify_nfts
    rw [crossVerifyAux_append pre [] (r :: post) hpass (fun n _ => List.not_mem_nil _) hnd]
    simp only [crossVerifyAux]
    by_cases hr : nftDigest r.metadata = r.signature
    · have hmem : nftDigest r.metadata ∈ digestsOf pre := by
        by_contra hcon
        exact hviol ⟨hr, hcon⟩
      rw [if_neg (not_not_intro hr), if_neg (not_not_intro hr),
        if_pos (by simpa using List.mem_reverse.mpr hmem)]
    · rw [if_pos hr, if_pos hr]
  exact ⟨key post₁, (key post₁).trans (key post₂).symm⟩

/-- C3: a store whose records are all well formed and digest-distinct except
for one record whose stored digest was replaced by a string different from
the digest of its unchanged metadata is rejected with a mismatch outcome
naming that record. -/
theorem C3_tampered_digest_mismatch (pre post : List NFT) (t : NFT)
    (hpass : ∀ n ∈ pre ++ post, nftDigest n.metadata = n.signature)
    (hnd : (digestsOf (pre ++ post)).Nodup)
    (htamper : nftDigest t.metadata ≠ t.signature) :
    cross_verify_nfts (pre ++ t :: post) = VerifyOutcome.mismatch t.token_id := by
  have hpre : ∀ n ∈ pre, nftDigest n.metadata = n.signature :=
    fun n hn => hpass n (List.mem_append_left post hn)
  have hndp : (digestsOf pre).Nodup := by
    have hsplit : (digestsOf pre ++ digestsOf post).Nodup := by
      simpa only [digestsOf, List.map_append] using hnd
    exact (List.nodup_append.mp hsplit).1
  unfold cross_verify_nfts
  rw [crossVerifyAux_append pre [] (t :: post) hpre (fun n _ => List.not_mem_nil _) hndp]
  simp only [crossVerifyAux]
  rw [if_pos htamper]

/-- C4: when two distinct records carry identical metadata (hence identical
digests) and everything up to and including the first of them verifies
cleanly, the verifier accepts the prefix ending at the first occurrence and
rejects the second occurrence with a duplicate outcome naming its
identifier. -/
theorem C4_duplicate_metadata (pre mid post : List NFT) (a b : NFT)
    (hpass : ∀ n ∈ pre ++ a :: mid, nftDigest n.metadata = n.signature)
    (hnd : (digestsOf (pre ++ a :: mid)).Nodup)
    (hb : nftDigest b.metadata = b.signature)
    (hmeta : a.metadata = b.metadata)
    (hid : a.token_id ≠ b.token_id) :
    cross_verify_nfts (pre ++ a :: (mid ++ b :: post)) = VerifyOutcome.duplicate b.token_id ∧
    cross_verify_nfts (pre ++ a :: mid) = VerifyOutcome.ok := by
  have hassoc : pre ++ a :: (mid ++ b :: post) = (pre ++ a :: mid) ++ b :: post := by
    simp [List.append_assoc]
  constructor
  · rw [hassoc]
    unfold cross_verify_nfts
    rw [crossVerifyAux_append (pre ++ a :: mid) [] (b :: post) hpass
      (fun n _ => List.not_mem_nil _) hnd]
    simp only [crossVerifyAux]
    have hmem : nftDigest b.metadata ∈ digestsOf (pre ++ a :: mid) := by
      have ha : a ∈ pre ++ a :: mid := List.mem_append_right pre (List.mem_cons_self a mid)
      exact List.mem_map.mpr ⟨a, ha, by rw [hmeta]⟩
    rw [if_neg (not_not_intro hb), if_pos (by simpa using List.mem_reverse.mpr hmem)]
  · unfold cross_verify_nfts
    rw [← List.append_nil (pre ++ a :: mid),
      crossVerifyAux_append (pre ++ a :: mid) [] [] hpass
        (fun n _ => List.not_mem_nil _) hnd]
    rfl

/-- C5: the digest assigned at record construction depends only on the
contents of the metadata mapping: well-formed mappings that are
permutations of each other get the same digest and the same stored
signature. -/
theorem C5_digest_key_order_independent (l₁ l₂ : List (String × String))
    (hperm : List.Perm l₁ l₂)
    (hkeys : (l₁.map Prod.fst).Nodup) :
    nftDigest l₁ = nftDigest l₂ ∧
    ∀ tid : String, (NFT.make tid l₁).signature = (NFT.make tid l₂).signature := by
  have hsort : sortItems l₁ = sortItems l₂ := sortItems_perm_eq hperm
  have hdig : nftDigest l₁ = nftDigest l₂ := by
    unfold nftDigest canonical_json
    rw [hsort]
  exact ⟨hdig, fun _ => hdig⟩

/-- C6: on every non-empty reading, `think` returns the arithmetic mean of
the channel values paired with status `normal` exactly when the mean lies
in the inclusive band `[24, 26]`, and `anomaly` otherwise; concretely the
claimed example and boundary readings evaluate as stated. -/
theorem C6_think_mean_and_band :
    (∀ readings : List (String × ℚ), readings ≠ [] →
      think readings = Except.ok (statusOf readings, meanOf readings) ∧
      (statusOf readings = "normal" ↔ (24 ≤ meanOf readings ∧ meanOf readings ≤ 26))) ∧
    think [("a", 24), ("b", 26)] = Except.ok ("normal", 25) ∧
    think [("a", 10), ("b", 10)] = Except.ok ("anomaly", 10) ∧
    think [("x", 24)] = Except.ok ("normal", 24) ∧
    think [("x", 26)] = Except.ok ("normal", 26) := by
  refine ⟨?_, ?_, ?_, ?_, ?_⟩
  · intro readings hne
    have hlen : readings.length ≠ 0 := by simpa [List.length_eq_zero] using hne
    constructor
    · unfold think statusOf meanOf
      rw [if_neg hlen]
    · unfold statusOf
      by_cases hband : 24 ≤ meanOf readings ∧ meanOf readings ≤ 26
      · simp [hband]
      · simp [hband]
  · unfold think
    norm_num
  · unfold think
    norm_num
  · unfold think
    norm_num
  · unfold think
    norm_num

/-- C7: `think` fails with the domain error (`ZeroDivisionError`) precisely
on the empty reading, and succeeds on every non-empty reading. -/
theorem C7_think_error_iff_empty (readings : List (String × ℚ)) :
    (think readings = Except.error PyError.zeroDivisionError ↔ readings = []) ∧
    ((∃ s v, think readings = Except.ok (s, v)) ↔ readings ≠ []) := by
  cases readings with
  | nil =>
    constructor
    · simp [think]
    · constructor
      · rintro ⟨s, v, h⟩
        simp [think] at h
      · intro h
        exact absurd rfl h
  | cons p rest =>
    have hlen : (p :: rest).length ≠ 0 := by simp
    constructor
    · constructor
      · intro h
        rw [think, if_neg hlen] at h
        exact Except.noConfusion h
      · intro h
        exact List.noConfusion h
    · constructor
      · intro _
        simp
      · intro _
        exact ⟨_, _, by rw [think, if_neg hlen]⟩

/-- C8: with an always-succeeding verifier the 5-cycle loop runs
verify, update, think, act, breath in that order on each of the 5 cycles
and ends; with a verifier failing on cycle 3 the four stages run exactly
twice, and nothing runs after the cycle-3 verification failure. -/
theorem C8_loop_trace :
    mainTrace (fun _ => true) =
      [.verifyStage 1 true, .updateStage, .thinkStage, .actStage, .breathStage,
       .verifyStage 2 true, .updateStage, .thinkStage, .actStage, .breathStage,
       .verifyStage 3 true, .updateStage, .thinkStage, .actStage, .breathStage,
       .verifyStage 4 true, .updateStage, .thinkStage, .actStage, .breathStage,
       .verifyStage 5 true, .updateStage, .thinkStage, .actStage, .breathStage] ∧
    (mainTrace (fun _ => true)).count StageEvent.updateStage = 5 ∧
    (mainTrace (fun _ => true)).count StageEvent.thinkStage = 5 ∧
    (mainTrace (fun _ => true)).count StageEvent.actStage = 5 ∧
    (mainTrace (fun _ => true)).count StageEvent.breathStage = 5 ∧
    mainTrace failOnThree =
      [.verifyStage 1 true, .updateStage, .thinkStage, .actStage, .breathStage,
       .verifyStage 2 true, .updateStage, .thinkStage, .actStage, .breathStage,
       .verifyStage 3 false] ∧
    (mainTrace failOnThree).count StageEvent.updateStage = 2 ∧
    (mainTrace failOnThree).count StageEvent.thinkStage = 2 ∧
    (mainTrace failOnThree).count StageEvent.actStage = 2 ∧
    (mainTrace failOnThree).count StageEvent.breathStage = 2 := by
  decide

/-- C9: the digest invariant is established by the constructor, and no run
of the loop changes the store: records keep
`signature = SHA-256(canonical_json(metadata))` for their whole lifetime. -/
theorem C9_record_invariant_preserved :
    (∀ (token_id : String) (metadata : List (String × String)),
      (NFT.make token_id metadata).signature = nftDigest metadata) ∧
    (∀ (s : LoopState) (n : Nat), (runLoopState s n).nfts = s.nfts) ∧
    (∀ (s : LoopState) (n : Nat),
      (∀ x ∈ s.nfts, nftDigest x.metadata = x.signature) →
      ∀ x ∈ (runLoopState s n).nfts, nftDigest x.metadata = x.signature) :=
  ⟨fun _ _ => rfl,
   fun s n => runLoopState_nfts s n,
   fun s n h x hx => h x (by rwa [runLoopState_nfts s n] at hx)⟩

/-- C10: the verifier accepts the empty store: the loop body never runs and
the success return is reached. -/
theorem C10_empty_store_ok :
    cross_verify_nfts [] = VerifyOutcome.ok ∧ cross_verify_ok [] = true :=
  ⟨rfl, rfl⟩

/-- C2: the literal 3-record store built at process start passes
verification. -/
theorem C2_initial_store_verifies :
    cross_verify_nfts mainStore = VerifyOutcome.ok ∧ cross_verify_ok mainStore = true := by
  have h : cross_verify_nfts mainStore = VerifyOutcome.ok := by decide
  refine ⟨h, ?_⟩
  unfold cross_verify_ok
  rw [h]
  rfl

/-- Concrete tampered record: arbitrary stored digest under unchanged
metadata. -/
def tamperedNFT : NFT := ⟨"t1", [("owner", "alice")], "bogus"⟩

/-- Concrete trailing record used to show later records are ignored. -/
def fillerNFT : NFT := ⟨"t2", [], "x"⟩

/-- Witness for C1 at a concrete store: one tampered record, with and
without a trailing record. -/
theorem C1_witness :
    (∀ n ∈ ([] : List NFT), nftDigest n.metadata = n.signature) ∧
    (digestsOf ([] : List NFT)).Nodup ∧
    ¬ (nftDigest tamperedNFT.metadata = tamperedNFT.signature ∧
        nftDigest tamperedNFT.metadata ∉ digestsOf ([] : List NFT)) ∧
    ((cross_verify_nfts ([] ++ tamperedNFT :: []) =
        if nftDigest tamperedNFT.metadata ≠ tamperedNFT.signature
        then VerifyOutcome.mismatch tamperedNFT.token_id
        else VerifyOutcome.duplicate tamperedNFT.token_id) ∧
      cross_verify_nfts ([] ++ tamperedNFT :: []) =
        cross_verify_nfts ([] ++ tamperedNFT :: [fillerNFT])) :=
  ⟨fun n hn => absurd hn (List.not_mem_nil n), by decide, by decide,
   C1_verifier_first_failure [] tamperedNFT [] [fillerNFT]
     (fun n hn => absurd hn (List.not_mem_nil n)) (by decide) (by decide)⟩

/-- Concrete tampered record for the C3 witness. -/
def tamperedNFT2 : NFT := ⟨"n1", [("k", "v")], "0"⟩

/-- Witness for C3 at a concrete store. -/
theorem C3_witness :
    (∀ n ∈ ([] : List NFT) ++ ([] : List NFT), nftDigest n.metadata = n.signature) ∧
    (digestsOf (([] : List NFT) ++ ([] : List NFT))).Nodup ∧
    nftDigest tamperedNFT2.metadata ≠ tamperedNFT2.signature ∧
    cross_verify_nfts ([] ++ tamperedNFT2 :: []) =
      VerifyOutcome.mismatch tamperedNFT2.token_id :=
  ⟨fun n hn => absurd hn (List.not_mem_nil n), by decide, by decide,
   C3_tampered_digest_mismatch [] [] tamperedNFT2
     (fun n hn => absurd hn (List.not_mem_nil n)) (by decide) (by decide)⟩

/-- Shared metadata for the duplicate-record witness. -/
def dupMeta : List (String × String) := [("owner", "alice")]

/-- First record carrying the shared metadata. -/
def dupA : NFT := NFT.make "nft1" dupMeta

/-- Second record carrying the shared metadata, different identifier. -/
def dupB : NFT := NFT.make "nft2" dupMeta

/-- Witness for C4 at a concrete store: two well-formed records with
identical metadata. -/
theorem C4_witness :
    (∀ n ∈ ([] : List NFT) ++ dupA :: [], nftDigest n.metadata = n.signature) ∧
    (digestsOf (([] : List NFT) ++ dupA :: [])).Nodup ∧
    nftDigest dupB.metadata = dupB.signature ∧
    dupA.metadata = dupB.metadata ∧
    dupA.token_id ≠ dupB.token_id ∧
    (cross_verify_nfts ([] ++ dupA :: ([] ++ dupB :: [])) =
        VerifyOutcome.duplicate dupB.token_id ∧
      cross_verify_nfts ([] ++ dupA :: []) = VerifyOutcome.ok) := by
  have hpass : ∀ n ∈ ([] : List NFT) ++ dupA :: [], nftDigest n.metadata = n.signature := by
    intro n hn
    simp only [List.nil_append, List.mem_singleton] at hn
    subst hn
    rfl
  exact ⟨hpass, by decide, rfl, rfl, by decide,
    C4_duplicate_metadata [] [] [] dupA dupB hpass (by decide) rfl rfl (by decide)⟩

/-- Witness for C5 at a concrete pair of reordered mappings. -/
theorem C5_witness :
    List.Perm ([("owner", "alice"), ("asset", "artwork")] : List (String × String))
      [("asset", "artwork"), ("owner", "alice")] ∧
    (([("owner", "alice"), ("asset", "artwork")] : List (String × String)).map Prod.fst).Nodup ∧
    nftDigest [("owner", "alice"), ("asset", "artwork")] =
      nftDigest [("asset", "artwork"), ("owner", "alice")] :=
  ⟨by decide, by decide,
   (C5_digest_key_order_independent [("owner", "alice"), ("asset", "artwork")]
     [("asset", "artwork"), ("owner", "alice")] (by decide) (by decide)).1⟩

/-- Witness for C6 at a concrete non-empty reading. -/
theorem C6_witness :
    (([("a", (24 : ℚ))] : List (String × ℚ)) ≠ []) ∧
    (think [("a", (24 : ℚ))] = Except.ok (statusOf [("a", 24)], meanOf [("a", 24)]) ∧
      (statusOf [("a", (24 : ℚ))] = "normal" ↔
        (24 ≤ meanOf [("a", 24)] ∧ meanOf [("a", 24)] ≤ 26))) :=
  ⟨by decide, C6_think_mean_and_band.1 [("a", 24)] (by decide)⟩

/-- Concrete loop state for the C9 witness. -/
def witnessState : LoopState := ⟨[NFT.make "w1" [("k", "v")]], 1⟩

/-- Witness for C9: the invariant survives five cycles on a concrete
store. -/
theorem C9_witness :
    (∀ x ∈ witnessState.nfts, nftDigest x.metadata = x.signature) ∧
    (∀ x ∈ (runLoopState witnessState 5).nfts, nftDigest x.metadata = x.signature) := by
  have hwf : ∀ x ∈ witnessState.nfts, nftDigest x.metadata = x.signature := by
    intro x hx
    simp only [witnessState, List.mem_singleton] at hx
    subst hx
    rfl
  exact ⟨hwf, C9_record_invariant_preserved.2.2 witnessState 5 hwf⟩
